import Mathlib

/-!
Shallow embedding of the EssenceCraft crafting engine.

The engine lives in the repository's `engine` module:
* `math` (probability helpers, die rolling) — `src/lib/math.ts` and
  the engine math module exercised by `src/engine/__tests__/math.spec.ts`;
* `simulate` (`simulateAttempt`, `simulateBatch`, `maxFeasibleAttempts`
  and their private helpers) — `src/unnamed/part_006`;
* the declarative data model (`ActionSpec`, `ActionIO`, …) — `src/unnamed/part_008`.

JavaScript numbers are modelled as rationals (`ℚ`); `Math.floor`/`Math.ceil`
become `Int.floor`/`Int.ceil`.  JavaScript objects used as resource records
(`Record<ResourceId, number>`) are modelled as association lists with the keys
in insertion order, which keeps key presence observable (the sparse-delta
claims are about key presence).  A stateful `() => number` random source is
modelled as a queue (`List ℚ`) of its future outputs, threaded explicitly;
an exhausted queue yields `0` (the claims quantify over all queues, so fixing
the continuation loses no generality).
-/

namespace EssenceCraft

/-- `ResourceId` — an opaque string key (engine `types` module). -/
abbrev ResourceId := String

/-- `Risk` — an opaque string risk level (engine `types` module). -/
abbrev Risk := String

/-- A JavaScript `Record<ResourceId, number>` as an association list in key
insertion order.  Invariant use sites never rely on key uniqueness. -/
abbrev ResRecord := List (ResourceId × ℚ)

/-- `record[key] ?? 0`: the value stored at `k`, defaulting to `0`. -/
def getD (r : ResRecord) (k : ResourceId) : ℚ :=
  match r with
  | [] => 0
  | (k₁, v₁) :: rest => if k₁ = k then v₁ else getD rest k

/-- `key in record` (JavaScript own-property presence). -/
def hasKey (r : ResRecord) (k : ResourceId) : Bool :=
  match r with
  | [] => false
  | (k₁, _) :: rest => if k₁ = k then true else hasKey rest k

/-- `record[key] = v`: overwrite the first binding of `k` in place (JavaScript
keeps the key at its original position), or append a fresh binding. -/
def setKey (r : ResRecord) (k : ResourceId) (v : ℚ) : ResRecord :=
  match r with
  | [] => [(k, v)]
  | (k₁, v₁) :: rest => if k₁ = k then (k, v) :: rest else (k₁, v₁) :: setKey rest k v

/-! ## The math module (`chanceNormal`, `chanceWithAdvMode`, `applyDcReduction`,
`rollD20`, `rollWithMode`) -/

/-- `clampProbability` from the math modules.  `Number.isFinite` is always true
on `ℚ`, so only the two range branches remain. -/
def clampProbability (value : ℚ) : ℚ :=
  if value < 0 then 0 else if value > 1 then 1 else value

/-- `chanceNormal(dc, modifier)` (a.k.a. `successChance` in the spec); the
source's local `needed = Math.max(1, dc - modifier)` is inlined. -/
def chanceNormal (dc modifier : ℚ) : ℚ :=
  if max 1 (dc - modifier) ≤ 1 then 1
  else if max 1 (dc - modifier) > 20 then 0
  else clampProbability ((21 - (⌈max 1 (dc - modifier)⌉ : ℚ)) / 20)

/-- The advantage mode vocabulary of `src/lib/math.ts` (`src/unnamed/part_002`). -/
inductive AdvantageMode where
  | normal
  | advantage
  | disadvantage
deriving DecidableEq

/-- `chanceWithAdvMode(dc, modifier, mode)` from `src/lib/math.ts`
(a.k.a. `successChanceWithMode` in the spec). -/
def chanceWithAdvMode (dc modifier : ℚ) (mode : AdvantageMode) : ℚ :=
  match mode with
  | .advantage =>
      clampProbability (1 - (1 - chanceNormal dc modifier) * (1 - chanceNormal dc modifier))
  | .disadvantage =>
      clampProbability (chanceNormal dc modifier * chanceNormal dc modifier)
  | .normal => chanceNormal dc modifier

/-- `applyDcReduction(dc, extra, perUnit, min)` from the engine math module:
returns `dc` untouched when `extra <= 0`, otherwise `max(min, dc - perUnit * extra)`. -/
def applyDcReduction (dc extra perUnit minDc : ℚ) : ℚ :=
  if extra ≤ 0 then dc else max minDc (dc - perUnit * extra)

/-- `RollMode` of the engine `types` module: `"normal" | "adv" | "dis"`. -/
inductive RollMode where
  | normal
  | adv
  | dis
deriving DecidableEq

/-- The face produced by `rollD20` from one raw `[0,1)` sample `r`:
`Math.min(20, Math.max(1, Math.floor(r * 20) + 1))`. -/
def d20Of (r : ℚ) : ℚ :=
  min 20 (max 1 ((⌊r * 20⌋ : ℚ) + 1))

/-! ## Engine data model (`src/unnamed/part_008`) -/

/-- The optional salvage clause of an `ActionIO`. -/
structure SalvageClause where
  dc : ℚ
  produce : ResRecord

/-- `ActionIO`: what an action consumes, produces on success, and salvages. -/
structure ActionIO where
  consume : ResRecord
  produceOnSuccess : ResRecord
  salvage : Option SalvageClause

/-- The `dcReduction` entry of `ActionOptions`. -/
structure DcReduction where
  perUnit : ℚ
  minDC : ℚ
  resource : ResourceId

/-- `ActionOptions` (the `custom` grab-bag is irrelevant to the engine). -/
structure ActionOptions where
  allowExtraCatalyst : Option Bool
  dcReduction : Option DcReduction

/-- `DcValue`: a flat number or a function of `(risk, inputs)`. -/
inductive DcValue where
  | const : ℚ → DcValue
  | fn : (Option Risk → ResRecord → ℚ) → DcValue

/-- One entry of `ActionSpec.risks`. -/
structure RiskEntry where
  dc : ℚ
  timeMinutes : Option ℚ

/-- `ActionSpec` (tier is an opaque label here; the engine never inspects it).
`risks` is an association list in the object's key insertion order, so that
`Object.keys(action.risks)[0]` is its head. -/
structure ActionSpec where
  id : String
  name : String
  tier : String
  risks : Option (List (Risk × RiskEntry))
  dc : Option DcValue
  io : Option Risk → ResRecord → ActionIO
  options : Option ActionOptions
  timeMinutes : ℚ

/-! ## Random sources

A caller-supplied `() => number` source is a stateful queue of `[0,1)` values;
`Math.random` (the platform RNG) is modelled the same way.  `RngState` bundles
the optional `random` and `salvageRandom` arguments of `AttemptContext`
together with the platform source; a `none` source models an argument that was
not supplied, so that the `salvageRandom ?? random ?? Math.random` fallback
chains are observable. -/
structure RngState where
  mainSrc : Option (List ℚ)
  salvSrc : Option (List ℚ)
  platform : List ℚ
deriving DecidableEq

/-- Draw one raw sample the way `random ?? Math.random` does. -/
def drawMain (s : RngState) : ℚ × RngState :=
  match s.mainSrc with
  | some q => (q.headD 0, { s with mainSrc := some q.tail })
  | none => (s.platform.headD 0, { s with platform := s.platform.tail })

/-- Draw one raw sample the way `salvageRandom ?? random ?? Math.random` does. -/
def drawSalvage (s : RngState) : ℚ × RngState :=
  match s.salvSrc with
  | some q => (q.headD 0, { s with salvSrc := some q.tail })
  | none => drawMain s

/-- `rollD20(random)` reading from the main-check source. -/
def rollD20main (s : RngState) : ℚ × RngState :=
  (d20Of (drawMain s).1, (drawMain s).2)

/-- `rollD20(salvageRandom ?? random ?? Math.random)`. -/
def rollD20salv (s : RngState) : ℚ × RngState :=
  (d20Of (drawSalvage s).1, (drawSalvage s).2)

/-- The `{raw, detail}` value returned by `rollWithMode`. -/
structure RollOut where
  raw : ℚ
  detail : List ℚ
deriving DecidableEq

/-- `rollWithMode(mode, random)` from the engine math module: one roll for
normal mode, two for advantage/disadvantage keeping max/min. -/
def rollWithMode (mode : RollMode) (s : RngState) : RollOut × RngState :=
  match mode with
  | .normal =>
      ({ raw := (rollD20main s).1, detail := [(rollD20main s).1] }, (rollD20main s).2)
  | .adv =>
      ({ raw := max (rollD20main s).1 (rollD20main (rollD20main s).2).1,
         detail := [(rollD20main s).1, (rollD20main (rollD20main s).2).1] },
       (rollD20main (rollD20main s).2).2)
  | .dis =>
      ({ raw := min (rollD20main s).1 (rollD20main (rollD20main s).2).1,
         detail := [(rollD20main s).1, (rollD20main (rollD20main s).2).1] },
       (rollD20main (rollD20main s).2).2)

/-! ## The simulate module (`src/unnamed/part_006`) -/

/-- `AttemptContext` minus the two random-source fields (those live in
`RngState`) . -/
structure AttemptContext where
  action : ActionSpec
  inventory : ResRecord
  modifier : ℚ
  mode : RollMode
  risk : Option Risk
  extraCatalyst : ℚ

/-- `CheckResult`. -/
structure CheckResult where
  raw : ℚ
  detail : List ℚ
  modifier : ℚ
  total : ℚ
  dc : ℚ
  mode : RollMode
  success : Bool
deriving DecidableEq

/-- `SalvageResult`. -/
structure SalvageResult where
  attempted : Bool
  raw : Option ℚ
  modifier : ℚ
  total : Option ℚ
  dc : Option ℚ
  success : Option Bool
deriving DecidableEq

/-- `AttemptResult`. -/
structure AttemptResult where
  feasible : Bool
  reason : Option String
  inventory : ResRecord
  delta : ResRecord
  consumed : ResRecord
  produced : ResRecord
  salvageProduced : ResRecord
  check : Option CheckResult
  salvage : Option SalvageResult
  timeMinutes : ℚ
deriving DecidableEq

/-- `resolveRisk(action, risk)`: keep the requested risk when the action lists
it (JavaScript also demands the risk string be truthy, i.e. non-empty),
otherwise fall back to the first declared risk. -/
def resolveRisk (action : ActionSpec) (risk : Option Risk) : Option Risk :=
  match action.risks with
  | none => risk
  | some risks =>
    match risk with
    | some r =>
        if r ≠ "" ∧ (risks.find? (fun p => p.1 == r)).isSome then some r
        else (risks.head?).map Prod.fst
    | none => (risks.head?).map Prod.fst

/-- The truthiness test `risk && action.risks?.[risk]` of `resolveDcAndTime`. -/
def riskEntryFor (action : ActionSpec) (risk : Option Risk) : Option RiskEntry :=
  match risk, action.risks with
  | some r, some risks =>
      if r ≠ "" then (risks.find? (fun p => p.1 == r)).map Prod.snd else none
  | _, _ => none

/-- `resolveDcAndTime(action, risk, inputs)`, with `none` modelling the thrown
`Unable to resolve DC` configuration error. -/
def resolveDcAndTime (action : ActionSpec) (risk : Option Risk) (inputs : ResRecord) :
    Option (ℚ × ℚ) :=
  match riskEntryFor action risk with
  | some entry => some (entry.dc, entry.timeMinutes.getD action.timeMinutes)
  | none =>
    match action.dc with
    | some (.fn f) => some (f risk inputs, action.timeMinutes)
    | some (.const d) => some (d, action.timeMinutes)
    | none => none

/-- `applyReduction(action, baseDc, extraCatalyst)`. -/
def applyReduction (action : ActionSpec) (baseDc : ℚ) (extraCatalyst : ℚ) : ℚ :=
  match action.options with
  | none => baseDc
  | some opts =>
    match opts.dcReduction with
    | none => baseDc
    | some red => applyDcReduction baseDc extraCatalyst red.perUnit red.minDC

/-- `withExtraCatalystConsumption(action, consume, extraCatalyst)`: add the
extra catalyst spend to a copy of `consume`. -/
def withExtraCatalystConsumption (action : ActionSpec) (consume : ResRecord)
    (extraCatalyst : ℚ) : ResRecord :=
  match action.options with
  | none => consume
  | some opts =>
    match opts.dcReduction with
    | none => consume
    | some red =>
      if 0 < extraCatalyst then
        setKey consume red.resource (getD consume red.resource + extraCatalyst)
      else consume

/-- `isFeasible(inventory, consumption)`: every entry with a truthy (nonzero)
amount must be covered by the inventory. -/
def isFeasible (inventory consumption : ResRecord) : Bool :=
  consumption.all (fun p => if p.2 = 0 then true else decide (p.2 ≤ getD inventory p.1))

/-- `mergeDelta(target, delta)`: fold the nonzero entries of `delta` into
`target` (in-place accumulation on the target object). -/
def mergeDelta (target : ResRecord) : ResRecord → ResRecord
  | [] => target
  | (k, a) :: rest =>
    if a = 0 then mergeDelta target rest
    else mergeDelta (setKey target k (getD target k + a)) rest

/-- `applyToInventory(inventory, delta)`: add each nonzero delta entry,
flooring the resulting count at zero. -/
def applyToInventory (inventory : ResRecord) : ResRecord → ResRecord
  | [] => inventory
  | (k, a) :: rest =>
    if a = 0 then applyToInventory inventory rest
    else applyToInventory (setKey inventory k (max 0 (getD inventory k + a))) rest

/-- `negateRecord(record)`: a fresh record with the nonzero entries negated. -/
def negateRecord : ResRecord → ResRecord
  | [] => []
  | (k, v) :: rest => if v = 0 then negateRecord rest else (k, -v) :: negateRecord rest

/-- `cloneInventory(inventory)` is a shallow copy; its entry list is equal to
the original's, so on record values it is the identity. -/
def cloneInventory (inventory : ResRecord) : ResRecord := inventory

/-- The total consumption `simulateAttempt` charges for a context: the
resolved-risk `ActionIO.consume` plus the extra catalyst spend. -/
def consumptionFor (action : ActionSpec) (inventory : ResRecord) (risk : Option Risk)
    (extraCatalyst : ℚ) : ResRecord :=
  withExtraCatalystConsumption action
    (action.io (resolveRisk action risk) inventory).consume extraCatalyst

/-- `consumptionFor` applied to an `AttemptContext`. -/
def consumptionOf (ctx : AttemptContext) : ResRecord :=
  consumptionFor ctx.action ctx.inventory ctx.risk ctx.extraCatalyst

/-- The salvage step of `simulateAttempt` (lines 132–153): produces the
`SalvageResult`, the updated delta, the `salvageDelta` record and the updated
random state. -/
def salvageStep (modifier : ℚ) (success : Bool) (salvage : Option SalvageClause)
    (delta : ResRecord) (rng : RngState) :
    SalvageResult × ResRecord × ResRecord × RngState :=
  match success, salvage with
  | false, some clause =>
    let roll := (rollD20salv rng).1
    let rng2 := (rollD20salv rng).2
    let salvageSuccess : Bool := decide (clause.dc ≤ roll + modifier)
    if salvageSuccess then
      ({ attempted := true, raw := some roll, modifier := modifier,
         total := some (roll + modifier), dc := some clause.dc,
         success := some salvageSuccess },
       mergeDelta delta clause.produce, mergeDelta [] clause.produce, rng2)
    else
      ({ attempted := true, raw := some roll, modifier := modifier,
         total := some (roll + modifier), dc := some clause.dc,
         success := some salvageSuccess },
       delta, [], rng2)
  | _, _ =>
    ({ attempted := false, raw := none, modifier := modifier,
       total := none, dc := none, success := none }, delta, [], rng)

/-- `simulateAttempt(ctx)`: `none` models the thrown configuration error from
`resolveDcAndTime`; otherwise the result is paired with the updated random
state. -/
def simulateAttempt (ctx : AttemptContext) (rng : RngState) :
    Option (AttemptResult × RngState) :=
  match resolveDcAndTime ctx.action (resolveRisk ctx.action ctx.risk)
      (cloneInventory ctx.inventory) with
  | none => none
  | some (baseDc, timeMinutes) =>
    let currentInventory := cloneInventory ctx.inventory
    let actualDc := applyReduction ctx.action baseDc ctx.extraCatalyst
    let consumption := consumptionOf ctx
    if isFeasible currentInventory consumption = false then
      some ({ feasible := false, reason := some "insufficient-resources",
              inventory := currentInventory, delta := [], consumed := [],
              produced := [], salvageProduced := [], check := none,
              salvage := none, timeMinutes := timeMinutes }, rng)
    else
      let checkRoll := (rollWithMode ctx.mode rng).1
      let rng1 := (rollWithMode ctx.mode rng).2
      let total := checkRoll.raw + ctx.modifier
      let success : Bool := decide (actualDc ≤ total)
      let producedOnSuccess :=
        if success then (ctx.action.io (resolveRisk ctx.action ctx.risk) currentInventory).produceOnSuccess
        else []
      let delta := mergeDelta (mergeDelta [] (negateRecord consumption)) producedOnSuccess
      let step := salvageStep ctx.modifier success
        (ctx.action.io (resolveRisk ctx.action ctx.risk) currentInventory).salvage delta rng1
      some ({ feasible := true, reason := none,
              inventory := applyToInventory (cloneInventory currentInventory) step.2.1,
              delta := step.2.1,
              consumed := consumption,
              produced := producedOnSuccess,
              salvageProduced := step.2.2.1,
              check := some { raw := checkRoll.raw, detail := checkRoll.detail,
                              modifier := ctx.modifier, total := total,
                              dc := actualDc, mode := ctx.mode, success := success },
              salvage := some step.1,
              timeMinutes := timeMinutes }, step.2.2.2)

/-- `BatchResult.summary`. -/
structure BatchSummary where
  runs : ℕ
  totalMinutes : ℚ
  delta : ResRecord
deriving DecidableEq

/-- `BatchResult`. -/
structure BatchResult where
  attempts : List AttemptResult
  summary : BatchSummary
  finalInventory : ResRecord
deriving DecidableEq

/-- The `for` loop of `simulateBatch`, with the loop state (results, current
inventory, accumulated minutes, accumulated delta, random state) explicit and
the remaining iteration count structural. -/
def batchLoop (ctx : AttemptContext) :
    ℕ → ResRecord → List AttemptResult → ℚ → ResRecord → RngState →
    Option (List AttemptResult × ResRecord × ℚ × ResRecord × RngState)
  | 0, inv, acc, mins, tot, rng => some (acc, inv, mins, tot, rng)
  | n + 1, inv, acc, mins, tot, rng =>
    match simulateAttempt { ctx with inventory := inv } rng with
    | none => none
    | some (res, rng1) =>
      if res.feasible then
        batchLoop ctx n res.inventory (acc ++ [res]) (mins + res.timeMinutes)
          (mergeDelta tot res.delta) rng1
      else
        some (acc, inv, mins, tot, rng1)

/-- `simulateBatch(ctx, attempts)`. -/
def simulateBatch (ctx : AttemptContext) (attempts : ℕ) (rng : RngState) :
    Option (BatchResult × RngState) :=
  match batchLoop ctx attempts (cloneInventory ctx.inventory) [] 0 [] rng with
  | none => none
  | some (acc, inv, mins, tot, rng1) =>
    some ({ attempts := acc,
            summary := { runs := acc.length, totalMinutes := mins, delta := tot },
            finalInventory := inv }, rng1)

/-- `maxFeasibleAttempts(action, inventory, risk, extraCatalyst)`; `none`
models the `Number.POSITIVE_INFINITY` return. -/
def maxFeasibleAttempts (action : ActionSpec) (inventory : ResRecord)
    (risk : Option Risk) (extraCatalyst : ℚ) : Option ℤ :=
  match
    ((consumptionFor action inventory risk extraCatalyst).filter
        (fun p => decide (0 < p.2))).map
      (fun p => ⌊getD inventory p.1 / p.2⌋)
  with
  | [] => none
  | l :: ls => some (max 0 (ls.foldl min l))

/-! ## Heap model for the mutation claim

JavaScript records are heap objects: `simulateAttempt` receives a *reference*
to the caller's inventory object and mutates records through references
(`mergeDelta`, `applyToInventory` assign into their first argument).  `Store`
is the heap (address = list index); `simulateAttemptS`/`simulateBatchS` mirror
the source's allocations (`{...}` literals and `cloneInventory` spreads) and
in-place writes, while reusing the value-level helpers above for everything
the source computes without mutation.  Only the reference-relevant pieces of
the results (feasibility, the inventory and delta references, the time) are
kept; the functional model above carries the full result values. -/

/-- The heap: address `a` holds the record `Store[a]`. -/
abbrev Store := List ResRecord

/-- Dereference an address (out-of-range reads yield an empty record; the
theorems only read live addresses). -/
def readS (s : Store) (a : ℕ) : ResRecord := s.getD a []

/-- Overwrite the record at address `a` in place. -/
def writeS (s : Store) (a : ℕ) (r : ResRecord) : Store := s.set a r

/-- Allocate a fresh object holding `r`; returns its address. -/
def allocS (s : Store) (r : ResRecord) : ℕ × Store := (s.length, s ++ [r])

/-- `mergeDelta(target, delta)` acting through a reference: JavaScript mutates
the target object in place. -/
def mergeDeltaS (s : Store) (tgt : ℕ) (d : ResRecord) : Store :=
  writeS s tgt (mergeDelta (readS s tgt) d)

/-- `applyToInventory(inventory, delta)` acting through a reference. -/
def applyToInventoryS (s : Store) (tgt : ℕ) (d : ResRecord) : Store :=
  writeS s tgt (applyToInventory (readS s tgt) d)

/-- `AttemptContext` with the inventory passed by reference. -/
structure AttemptContextS where
  action : ActionSpec
  inventoryRef : ℕ
  modifier : ℚ
  mode : RollMode
  risk : Option Risk
  extraCatalyst : ℚ

/-- The reference-relevant part of an `AttemptResult`. -/
structure AttemptResultS where
  feasible : Bool
  inventoryRef : ℕ
  deltaRef : ℕ
  timeMinutes : ℚ
deriving DecidableEq

/-- The salvage branch of `simulateAttempt` in the heap model: on a failed
check with a salvage clause it rolls once and, on salvage success, merges the
salvage produce into the delta object and the salvageDelta object. -/
def salvageStepS (modifier : ℚ) (success : Bool) (clause : Option SalvageClause)
    (deltaRef salvRef : ℕ) (s : Store) (rng : RngState) : Store × RngState :=
  match success, clause with
  | false, some c =>
    if decide (c.dc ≤ (rollD20salv rng).1 + modifier) then
      (mergeDeltaS (mergeDeltaS s deltaRef c.produce) salvRef c.produce,
       (rollD20salv rng).2)
    else (s, (rollD20salv rng).2)
  | _, _ => (s, rng)

/-- `simulateAttempt` in the heap model: clone the caller's inventory into a
fresh object, allocate the `delta`, `salvageDelta` and final-inventory
objects, and write only through those fresh references. -/
def simulateAttemptS (ctx : AttemptContextS) (s : Store) (rng : RngState) :
    Option (AttemptResultS × Store × RngState) :=
  let curRef := (allocS s (cloneInventory (readS s ctx.inventoryRef))).1
  let s1 := (allocS s (cloneInventory (readS s ctx.inventoryRef))).2
  match resolveDcAndTime ctx.action (resolveRisk ctx.action ctx.risk) (readS s1 curRef) with
  | none => none
  | some (baseDc, timeMinutes) =>
    let actualDc := applyReduction ctx.action baseDc ctx.extraCatalyst
    let consumption := withExtraCatalystConsumption ctx.action
      (ctx.action.io (resolveRisk ctx.action ctx.risk) (readS s1 curRef)).consume
      ctx.extraCatalyst
    if isFeasible (readS s1 curRef) consumption = false then
      some ({ feasible := false, inventoryRef := curRef,
              deltaRef := (allocS s1 []).1, timeMinutes := timeMinutes },
            (allocS s1 []).2, rng)
    else
      let deltaRef := (allocS s1 []).1
      let s2 := (allocS s1 []).2
      let s3 := mergeDeltaS s2 deltaRef (negateRecord consumption)
      let success : Bool :=
        decide (actualDc ≤ (rollWithMode ctx.mode rng).1.raw + ctx.modifier)
      let producedOnSuccess :=
        if success then
          (ctx.action.io (resolveRisk ctx.action ctx.risk) (readS s1 curRef)).produceOnSuccess
        else []
      let s4 := mergeDeltaS s3 deltaRef producedOnSuccess
      let salvRef := (allocS s4 []).1
      let s5 := (allocS s4 []).2
      let s6 := (salvageStepS ctx.modifier success
        (ctx.action.io (resolveRisk ctx.action ctx.risk) (readS s1 curRef)).salvage
        deltaRef salvRef s5 (rollWithMode ctx.mode rng).2).1
      let rng2 := (salvageStepS ctx.modifier success
        (ctx.action.io (resolveRisk ctx.action ctx.risk) (readS s1 curRef)).salvage
        deltaRef salvRef s5 (rollWithMode ctx.mode rng).2).2
      let finRef := (allocS s6 (cloneInventory (readS s6 curRef))).1
      let s7 := (allocS s6 (cloneInventory (readS s6 curRef))).2
      some ({ feasible := true, inventoryRef := finRef, deltaRef := deltaRef,
              timeMinutes := timeMinutes },
            applyToInventoryS s7 finRef (readS s7 deltaRef), rng2)

/-- The `simulateBatch` loop in the heap model: the inventory variable holds a
reference that is rebound to each feasible attempt's result inventory, and
`totalDelta` is accumulated by in-place merges. -/
def batchLoopS (ctx : AttemptContextS) :
    ℕ → ℕ → ℕ → Store → RngState → Option (ℕ × Store × RngState)
  | 0, invRef, _totRef, s, rng => some (invRef, s, rng)
  | n + 1, invRef, totRef, s, rng =>
    match simulateAttemptS { ctx with inventoryRef := invRef } s rng with
    | none => none
    | some (res, s1, rng1) =>
      if res.feasible then
        batchLoopS ctx n res.inventoryRef totRef
          (mergeDeltaS s1 totRef (readS s1 res.deltaRef)) rng1
      else some (invRef, s1, rng1)

/-- `simulateBatch` in the heap model. -/
def simulateBatchS (ctx : AttemptContextS) (attempts : ℕ) (s : Store)
    (rng : RngState) : Option (ℕ × Store × RngState) :=
  let cloneRef := (allocS s (cloneInventory (readS s ctx.inventoryRef))).1
  let s1 := (allocS s (cloneInventory (readS s ctx.inventoryRef))).2
  batchLoopS ctx attempts cloneRef (allocS s1 []).1 (allocS s1 []).2 rng

/-- Every entry of the record is non-negative. -/
def nonnegInv (r : ResRecord) : Prop := ∀ p ∈ r, 0 ≤ p.2

/-! ## Batch threading predicate -/

/-- `BatchChain ctx inv rng results finInv finRng`: starting from inventory
`inv` and random state `rng`, the attempts in `results` were produced
back-to-back by `simulateAttempt`, each feasible, each one's output inventory
feeding the next, ending in `finInv` and `finRng`. -/
inductive BatchChain (ctx : AttemptContext) :
    ResRecord → RngState → List AttemptResult → ResRecord → RngState → Prop
  | nil (inv : ResRecord) (rng : RngState) : BatchChain ctx inv rng [] inv rng
  | cons (inv : ResRecord) (rng : RngState) (r : AttemptResult) (rng1 : RngState)
      (rest : List AttemptResult) (finInv : ResRecord) (finRng : RngState) :
      simulateAttempt { ctx with inventory := inv } rng = some (r, rng1) →
      r.feasible = true →
      BatchChain ctx r.inventory rng1 rest finInv finRng →
      BatchChain ctx inv rng (r :: rest) finInv finRng

/-! ## Concrete fixtures for the witnesses and counterexamples -/

/-- A minimal well-formed action: consume 3 raw, produce 1 fine, DC 12. -/
def demoAction : ActionSpec :=
  { id := "demo", name := "Demo", tier := "T2", risks := none,
    dc := some (.const 12),
    io := fun _ _ =>
      { consume := [("raw", 3)], produceOnSuccess := [("fine", 1)], salvage := none },
    options := none, timeMinutes := 10 }

/-- No random sources supplied, platform queue empty (every raw draw is 0,
hence every die face is 1). -/
def zeroRng : RngState := { mainSrc := none, salvSrc := none, platform := [] }

/-- The spec's feasibility-gating example: consume `{raw:3}` against `{raw:2}`. -/
def ctxShort : AttemptContext :=
  { action := demoAction, inventory := [("raw", 2)], modifier := 0,
    mode := .normal, risk := none, extraCatalyst := 0 }

/-- `demoAction` against `{raw:5}` with a `+20` modifier: sufficient for
exactly one attempt. -/
def ctxRun : AttemptContext :=
  { action := demoAction, inventory := [("raw", 5)], modifier := 20,
    mode := .normal, risk := none, extraCatalyst := 0 }

/-- The one feasible attempt `simulateBatch ctxRun 3 zeroRng` performs. -/
def runRes1 : AttemptResult :=
  { feasible := true, reason := none,
    inventory := [("raw", 2), ("fine", 1)],
    delta := [("raw", -3), ("fine", 1)],
    consumed := [("raw", 3)], produced := [("fine", 1)], salvageProduced := [],
    check := some { raw := 1, detail := [1], modifier := 20, total := 21,
                    dc := 12, mode := .normal, success := true },
    salvage := some { attempted := false, raw := none, modifier := 20,
                      total := none, dc := none, success := none },
    timeMinutes := 10 }

/-- The batch result of `simulateBatch ctxRun 3 zeroRng`. -/
def runBatch : BatchResult :=
  { attempts := [runRes1],
    summary := { runs := 1, totalMinutes := 10, delta := [("raw", -3), ("fine", 1)] },
    finalInventory := [("raw", 2), ("fine", 1)] }

/-- An action whose success production exactly cancels its consumption. -/
def cancelAction : ActionSpec :=
  { id := "cancel", name := "Cancel", tier := "T2", risks := none,
    dc := some (.const 0),
    io := fun _ _ =>
      { consume := [("raw", 1)], produceOnSuccess := [("raw", 1)], salvage := none },
    options := none, timeMinutes := 5 }

/-- A context in which `cancelAction` always succeeds. -/
def cancelCtx : AttemptContext :=
  { action := cancelAction, inventory := [("raw", 1)], modifier := 0,
    mode := .normal, risk := none, extraCatalyst := 0 }

/-- The result of `simulateAttempt cancelCtx zeroRng`: note the explicit
zero-valued `"raw"` key left in the delta by the cancellation. -/
def cancelRes : AttemptResult :=
  { feasible := true, reason := none,
    inventory := [("raw", 1)],
    delta := [("raw", 0)],
    consumed := [("raw", 1)], produced := [("raw", 1)], salvageProduced := [],
    check := some { raw := 1, detail := [1], modifier := 0, total := 1,
                    dc := 0, mode := .normal, success := true },
    salvage := some { attempted := false, raw := none, modifier := 0,
                      total := none, dc := none, success := none },
    timeMinutes := 5 }

/-- An action with a salvage clause (DC 12, salvage DC 12 returning one raw). -/
def salvAction : ActionSpec :=
  { id := "salv", name := "Salvage", tier := "T2", risks := none,
    dc := some (.const 12),
    io := fun _ _ =>
      { consume := [("raw", 2)], produceOnSuccess := [("fine", 1)],
        salvage := some { dc := 12, produce := [("raw", 1)] } },
    options := none, timeMinutes := 10 }

/-- A context whose main check fails (roll 1 vs DC 12). -/
def salvCtx : AttemptContext :=
  { action := salvAction, inventory := [("raw", 5)], modifier := 0,
    mode := .normal, risk := none, extraCatalyst := 0 }

/-- A main-check queue yielding a 1 and a salvage queue yielding a 19. -/
def salvRng : RngState :=
  { mainSrc := some [0], salvSrc := some [9 / 10], platform := [] }

/-- The result of `simulateAttempt salvCtx salvRng`. -/
def salvRes : AttemptResult :=
  { feasible := true, reason := none,
    inventory := [("raw", 4)],
    delta := [("raw", -1)],
    consumed := [("raw", 2)], produced := [], salvageProduced := [("raw", 1)],
    check := some { raw := 1, detail := [1], modifier := 0, total := 1,
                    dc := 12, mode := .normal, success := false },
    salvage := some { attempted := true, raw := some 19, modifier := 0,
                      total := some 19, dc := some 12, success := some true },
    timeMinutes := 10 }

/-- The random state after `simulateAttempt salvCtx salvRng`. -/
def salvRngOut : RngState :=
  { mainSrc := some [], salvSrc := some [], platform := [] }

/-- The T4-style action of the `maxFeasibleAttempts` scenario: costs
`{fused:1, rawAE:2}` and accepts extra `rawAE` catalyst. -/
def catalystAction : ActionSpec :=
  { id := "cat", name := "Catalyst", tier := "T4", risks := none,
    dc := some (.const 16),
    io := fun _ _ =>
      { consume := [("fused", 1), ("rawAE", 2)], produceOnSuccess := [("superior", 1)],
        salvage := none },
    options := some { allowExtraCatalyst := some true,
                      dcReduction := some { perUnit := 1, minDC := 10, resource := "rawAE" } },
    timeMinutes := 30 }

/-- The scenario inventory `{fused:10, rawAE:5}`. -/
def catalystInv : ResRecord := [("fused", 10), ("rawAE", 5)]

/-- A one-record heap holding the caller's inventory at address 0. -/
def demoStore : Store := [[("raw", 7)]]

/-- A heap-level context running `demoAction` on the record at address 0. -/
def demoCtxS : AttemptContextS :=
  { action := demoAction, inventoryRef := 0, modifier := 20,
    mode := .normal, risk := none, extraCatalyst := 0 }

/-- The heap after `simulateAttemptS demoCtxS demoStore zeroRng`: the caller's
record at address 0 is untouched; addresses 1–4 hold the engine's clone,
delta, salvageDelta and final inventory objects. -/
def demoStoreOut : Store :=
  [[("raw", 7)], [("raw", 7)], [("raw", -3), ("fine", 1)], [], [("raw", 4), ("fine", 1)]]

section MathClaims

/-- Every output of `clampProbability` lies in `[0, 1]`. -/
theorem clampProbability_mem (v : ℚ) :
    0 ≤ clampProbability v ∧ clampProbability v ≤ 1 := by
  unfold clampProbability
  split_ifs with h1 h2 <;> constructor <;> linarith

/-- `chanceNormal` always lands in `[0, 1]`. -/
theorem chanceNormal_mem (dc modifier : ℚ) :
    0 ≤ chanceNormal dc modifier ∧ chanceNormal dc modifier ≤ 1 := by
  unfold chanceNormal
  split_ifs with h1 h2
  · exact ⟨by norm_num, by norm_num⟩
  · exact ⟨le_refl 0, by norm_num⟩
  · exact clampProbability_mem _

/-- C4: `chanceNormal(dc, modifier)` (the spec's `successChance`) equals `1`
when `max(1, dc - modifier) ≤ 1`, equals `0` when `max(1, dc - modifier) > 20`,
equals `(21 - ceil(max(1, dc - modifier))) / 20` otherwise, and always lies in
`[0, 1]`. -/
theorem chanceNormal_spec (dc modifier : ℚ) :
    (max 1 (dc - modifier) ≤ 1 → chanceNormal dc modifier = 1) ∧
    (max 1 (dc - modifier) > 20 → chanceNormal dc modifier = 0) ∧
    (1 < max 1 (dc - modifier) → max 1 (dc - modifier) ≤ 20 →
      chanceNormal dc modifier = (21 - (⌈max 1 (dc - modifier)⌉ : ℚ)) / 20) ∧
    (0 ≤ chanceNormal dc modifier ∧ chanceNormal dc modifier ≤ 1) := by
  refine ⟨?_, ?_, ?_, chanceNormal_mem dc modifier⟩
  · intro h
    unfold chanceNormal
    simp only [h, if_pos]
  · intro h
    unfold chanceNormal
    rw [if_neg (by linarith), if_pos h]
  · intro h1 h20
    have hcl : (2 : ℤ) ≤ ⌈max 1 (dc - modifier)⌉ := by
      have : (1 : ℤ) < ⌈max 1 (dc - modifier)⌉ := by
        rw [Int.lt_ceil]; exact_mod_cast h1
      omega
    have hcu : ⌈max 1 (dc - modifier)⌉ ≤ (20 : ℤ) := by
      rw [Int.ceil_le]; exact_mod_cast h20
    have hclq : (2 : ℚ) ≤ (⌈max 1 (dc - modifier)⌉ : ℚ) := by exact_mod_cast hcl
    have hcuq : ((⌈max 1 (dc - modifier)⌉ : ℤ) : ℚ) ≤ 20 := by exact_mod_cast hcu
    unfold chanceNormal
    rw [if_neg (by linarith), if_neg (by linarith)]
    unfold clampProbability
    rw [if_neg (by linarith), if_neg (by linarith)]

/-- Witness for C4: at `dc = 10`, `modifier = 0` the middle branch applies and
yields `(21 - ⌈10⌉)/20`. -/
theorem chanceNormal_spec_witness :
    chanceNormal 10 0 = (21 - (⌈max 1 ((10 : ℚ) - 0)⌉ : ℚ)) / 20 :=
  (chanceNormal_spec 10 0).2.2.1 (by norm_num) (by norm_num)

/-- Counterexample for C5 as frozen: `applyDcReduction(3, 0, 1, 5)` returns the
unreduced `dc = 3`, not `max(minDc, dc - perUnit * extraUnits) = 5`. -/
theorem applyDcReduction_claim_counterexample :
    applyDcReduction 3 0 1 5 ≠ max 5 ((3 : ℚ) - 1 * 0) := by
  unfold applyDcReduction
  norm_num

/-- C5 (amended): `applyDcReduction(dc, extraUnits, perUnit, minDc)` returns
`dc` unchanged when `extraUnits ≤ 0` and `max(minDc, dc - perUnit * extraUnits)`
when `extraUnits > 0`; in particular for every positive `extraUnits` the result
is at least `minDc`. -/
theorem applyDcReduction_amended (dc extra perUnit minDc : ℚ) :
    (extra ≤ 0 → applyDcReduction dc extra perUnit minDc = dc) ∧
    (0 < extra →
      applyDcReduction dc extra perUnit minDc = max minDc (dc - perUnit * extra) ∧
      minDc ≤ applyDcReduction dc extra perUnit minDc) := by
  constructor
  · intro h
    unfold applyDcReduction
    rw [if_pos h]
  · intro h
    unfold applyDcReduction
    rw [if_neg (by linarith)]
    exact ⟨rfl, le_max_left _ _⟩

/-- Witness for the amended C5: the repository's own test case
`applyDcReduction(20, 10, 4, 5) = 5 = max(5, 20 - 40)` and the clamp holds. -/
theorem applyDcReduction_amended_witness :
    applyDcReduction 20 10 4 5 = max 5 ((20 : ℚ) - 4 * 10) ∧
    (5 : ℚ) ≤ applyDcReduction 20 10 4 5 :=
  (applyDcReduction_amended 20 10 4 5).2 (by norm_num)

/-- C7: with `p = chanceNormal dc modifier`, advantage mode yields exactly
`1 - (1 - p)²`, disadvantage yields exactly `p²`, and
advantage ≥ normal ≥ disadvantage. -/
theorem chanceWithAdvMode_spec (dc modifier : ℚ) :
    chanceWithAdvMode dc modifier .advantage
      = 1 - (1 - chanceNormal dc modifier) * (1 - chanceNormal dc modifier) ∧
    chanceWithAdvMode dc modifier .disadvantage
      = chanceNormal dc modifier * chanceNormal dc modifier ∧
    chanceNormal dc modifier ≤ chanceWithAdvMode dc modifier .advantage ∧
    chanceWithAdvMode dc modifier .disadvantage ≤ chanceNormal dc modifier := by
  obtain ⟨h0, h1⟩ := chanceNormal_mem dc modifier
  set p := chanceNormal dc modifier with hp
  have hadv : chanceWithAdvMode dc modifier .advantage = 1 - (1 - p) * (1 - p) := by
    show clampProbability (1 - (1 - p) * (1 - p)) = 1 - (1 - p) * (1 - p)
    unfold clampProbability
    rw [if_neg (by nlinarith), if_neg (by nlinarith)]
  have hdis : chanceWithAdvMode dc modifier .disadvantage = p * p := by
    show clampProbability (p * p) = p * p
    unfold clampProbability
    rw [if_neg (by nlinarith), if_neg (by nlinarith)]
  refine ⟨hadv, hdis, ?_, ?_⟩
  · rw [hadv]; nlinarith
  · rw [hdis]; nlinarith

end MathClaims

section RecordLemmas

/-- Every entry of `setKey r k v` is `(k, v)` or an entry of `r`. -/
theorem mem_setKey {r : ResRecord} {k : ResourceId} {v : ℚ} {p : ResourceId × ℚ}
    (h : p ∈ setKey r k v) : p = (k, v) ∨ p ∈ r := by
  induction r with
  | nil => simpa [setKey] using h
  | cons q rest ih =>
    unfold setKey at h
    by_cases hk : q.1 = k
    · rw [if_pos hk] at h
      rcases List.mem_cons.mp h with h1 | h1
      · exact Or.inl h1
      · exact Or.inr (List.mem_cons_of_mem _ h1)
    · rw [if_neg hk] at h
      rcases List.mem_cons.mp h with h1 | h1
      · exact Or.inr (h1 ▸ List.mem_cons_self _ _)
      · rcases ih h1 with h2 | h2
        · exact Or.inl h2
        · exact Or.inr (List.mem_cons_of_mem _ h2)

/-- A key present in `setKey r k1 v` is `k1` or already present in `r`. -/
theorem hasKey_setKey {r : ResRecord} {k1 : ResourceId} {v : ℚ} {k : ResourceId}
    (h : hasKey (setKey r k1 v) k = true) : k = k1 ∨ hasKey r k = true := by
  induction r with
  | nil =>
    unfold setKey hasKey at h
    by_cases hk : k1 = k
    · exact Or.inl hk.symm
    · rw [if_neg hk] at h
      exact absurd h (by simp [hasKey])
  | cons q rest ih =>
    unfold setKey at h
    by_cases hk : q.1 = k1
    · rw [if_pos hk] at h
      unfold hasKey at h
      by_cases hkk : k1 = k
      · exact Or.inl hkk.symm
      · rw [if_neg hkk] at h
        exact Or.inr (by unfold hasKey; rw [if_neg (hk ▸ hkk)]; exact h)
    · rw [if_neg hk] at h
      unfold hasKey at h
      by_cases hqk : q.1 = k
      · exact Or.inr (by unfold hasKey; rw [if_pos hqk]
      )
      · rw [if_neg hqk] at h
        rcases ih h with h1 | h1
        · exact Or.inl h1
        · exact Or.inr (by unfold hasKey; rw [if_neg hqk]; exact h1)

/-- A key present after `mergeDelta` was present before or carried a nonzero
amount in the merged delta. -/
theorem hasKey_mergeDelta {t d : ResRecord} {k : ResourceId}
    (h : hasKey (mergeDelta t d) k = true) :
    hasKey t k = true ∨ ∃ a, (k, a) ∈ d ∧ a ≠ 0 := by
  induction d generalizing t with
  | nil => exact Or.inl h
  | cons q rest ih =>
    unfold mergeDelta at h
    by_cases hz : q.2 = 0
    · rw [if_pos hz] at h
      rcases ih h with h1 | ⟨a, ha, hz1⟩
      · exact Or.inl h1
      · exact Or.inr ⟨a, List.mem_cons_of_mem _ ha, hz1⟩
    · rw [if_neg hz] at h
      rcases ih h with h1 | ⟨a, ha, hz1⟩
      · rcases hasKey_setKey h1 with h2 | h2
        · exact Or.inr ⟨q.2, by rw [h2]; exact List.mem_cons_self _ _, hz⟩
        · exact Or.inl h2
      · exact Or.inr ⟨a, List.mem_cons_of_mem _ ha, hz1⟩

/-- Entries of `negateRecord c` are negated nonzero entries of `c`. -/
theorem mem_negateRecord {c : ResRecord} {k : ResourceId} {a : ℚ}
    (h : (k, a) ∈ negateRecord c) : (k, -a) ∈ c ∧ a ≠ 0 := by
  induction c with
  | nil => exact absurd h (by simp [negateRecord])
  | cons q rest ih =>
    unfold negateRecord at h
    by_cases hz : q.2 = 0
    · rw [if_pos hz] at h
      exact ⟨List.mem_cons_of_mem _ (ih h).1, (ih h).2⟩
    · rw [if_neg hz] at h
      rcases List.mem_cons.mp h with h1 | h1
      · have hk : q.1 = k := congrArg Prod.fst h1.symm
        have ha : -q.2 = a := congrArg Prod.snd h1.symm
        refine ⟨List.mem_cons.mpr (Or.inl ?_), ?_⟩
        · have : q = (k, -a) := by
            rw [← hk, ← ha, neg_neg]
          exact this.symm
        · intro h0
          exact hz (by rw [← ha] at h0; linarith [neg_eq_zero.mp h0])
      · exact ⟨List.mem_cons_of_mem _ (ih h1).1, (ih h1).2⟩

/-- One uncovered entry with nonzero amount falsifies `isFeasible`. -/
theorem isFeasible_eq_false {inv c : ResRecord} {k : ResourceId} {a : ℚ}
    (hmem : (k, a) ∈ c) (ha : a ≠ 0) (hshort : getD inv k < a) :
    isFeasible inv c = false := by
  by_contra h
  have hall : isFeasible inv c = true := by
    cases h1 : isFeasible inv c
    · exact absurd h1 h
    · rfl
  unfold isFeasible at hall
  have := List.all_eq_true.mp hall (k, a) hmem
  rw [if_neg ha] at this
  exact absurd (of_decide_eq_true this) (not_le.mpr hshort)

end RecordLemmas

section EngineClaims

/-- C1: whenever some resource's required consumption (base plus extra
catalyst) is positive and exceeds the inventory, `simulateAttempt` (given the
action's DC resolves at all) returns `feasible = false` with the reason flag,
the unchanged input inventory, an empty delta, no check detail, and an
untouched random state — no roll is performed. -/
theorem simulateAttempt_infeasible_spec (ctx : AttemptContext) (rng : RngState)
    (dt : ℚ × ℚ)
    (hdc : resolveDcAndTime ctx.action (resolveRisk ctx.action ctx.risk)
      (cloneInventory ctx.inventory) = some dt)
    (k : ResourceId) (a : ℚ) (hmem : (k, a) ∈ consumptionOf ctx) (hpos : 0 < a)
    (hshort : getD ctx.inventory k < a) :
    simulateAttempt ctx rng = some
      ({ feasible := false, reason := some "insufficient-resources",
         inventory := ctx.inventory, delta := [], consumed := [], produced := [],
         salvageProduced := [], check := none, salvage := none,
         timeMinutes := dt.2 }, rng) := by
  obtain ⟨d1, d2⟩ := dt
  have hfeas : isFeasible ctx.inventory (consumptionOf ctx) = false :=
    isFeasible_eq_false hmem (ne_of_gt hpos) hshort
  unfold simulateAttempt
  rw [hdc]
  simp [hfeas, cloneInventory]

/-- Witness for C1: the spec's example, consuming `{raw:3}` against `{raw:2}`. -/
theorem simulateAttempt_infeasible_witness :
    simulateAttempt ctxShort zeroRng = some
      ({ feasible := false, reason := some "insufficient-resources",
         inventory := [("raw", 2)], delta := [], consumed := [], produced := [],
         salvageProduced := [], check := none, salvage := none,
         timeMinutes := 10 }, zeroRng) := by
  have h := simulateAttempt_infeasible_spec ctxShort zeroRng (12, 10) rfl "raw" 3
    (by simp [consumptionOf, consumptionFor, withExtraCatalystConsumption, ctxShort,
      demoAction, resolveRisk])
    (by norm_num)
    (by norm_num [getD, ctxShort])
  simpa [ctxShort] using h

/-- `applyToInventory` preserves non-negativity: every updated entry is floored
at zero and untouched entries keep their value. -/
theorem applyToInventory_nonneg {inv : ResRecord} (d : ResRecord)
    (hin : nonnegInv inv) : nonnegInv (applyToInventory inv d) := by
  induction d generalizing inv with
  | nil => exact hin
  | cons q rest ih =>
    unfold applyToInventory
    by_cases hz : q.2 = 0
    · rw [if_pos hz]
      exact ih hin
    · rw [if_neg hz]
      refine ih ?_
      intro p hp
      rcases mem_setKey hp with h1 | h1
      · rw [h1]
        exact le_max_left 0 _
      · exact hin p h1

/-- Any inventory coming out of `simulateAttempt` is entrywise non-negative
whenever the input inventory is. -/
theorem simulateAttempt_inventory_nonneg {ctx : AttemptContext} {rng : RngState}
    {res : AttemptResult} {rng1 : RngState}
    (hin : nonnegInv ctx.inventory)
    (h : simulateAttempt ctx rng = some (res, rng1)) :
    nonnegInv res.inventory := by
  unfold simulateAttempt at h
  split at h
  · exact absurd h (by simp)
  · dsimp only at h
    split at h
    · simp only [Option.some.injEq, Prod.mk.injEq] at h
      rw [← h.1]
      simpa [cloneInventory] using hin
    · simp only [Option.some.injEq, Prod.mk.injEq] at h
      rw [← h.1]
      exact applyToInventory_nonneg _ (by simpa [cloneInventory] using hin)

/-- The batch loop preserves entrywise non-negativity of every recorded and
threaded inventory. -/
theorem batchLoop_nonneg (ctx : AttemptContext) (n : ℕ) :
    ∀ (inv : ResRecord) (acc : List AttemptResult) (mins : ℚ) (tot : ResRecord)
      (rng : RngState) (out : List AttemptResult × ResRecord × ℚ × ResRecord × RngState),
      nonnegInv inv →
      (∀ r ∈ acc, nonnegInv r.inventory) →
      batchLoop ctx n inv acc mins tot rng = some out →
      (∀ r ∈ out.1, nonnegInv r.inventory) ∧ nonnegInv out.2.1 := by
  induction n with
  | zero =>
    intro inv acc mins tot rng out hin hacc h
    unfold batchLoop at h
    cases Option.some.inj h
    exact ⟨hacc, hin⟩
  | succ n ih =>
    intro inv acc mins tot rng out hin hacc h
    unfold batchLoop at h
    cases hatt : simulateAttempt { ctx with inventory := inv } rng with
    | none =>
      rw [hatt] at h
      cases h
    | some pr =>
      obtain ⟨res, rng1⟩ := pr
      rw [hatt] at h
      dsimp only at h
      have hresInv : nonnegInv res.inventory :=
        simulateAttempt_inventory_nonneg hin hatt
      by_cases hf : res.feasible
      · rw [if_pos hf] at h
        refine ih res.inventory (acc ++ [res]) _ _ rng1 out hresInv ?_ h
        intro r hr
        rcases List.mem_append.mp hr with h1 | h1
        · exact hacc r h1
        · rw [List.mem_singleton.mp h1]
          exact hresInv
      · rw [if_neg hf] at h
        cases Option.some.inj h
        exact ⟨hacc, hin⟩

/-- C9: starting from an entrywise non-negative inventory, every inventory the
engine produces — the one returned by `simulateAttempt`, each per-attempt
inventory recorded by `simulateBatch`, and the batch's final inventory — is
entrywise non-negative, for every action, risk, mode, modifier and random
source. -/
theorem inventories_nonneg (ctx : AttemptContext) (rng : RngState) (n : ℕ)
    (hin : nonnegInv ctx.inventory) :
    (∀ res rng1, simulateAttempt ctx rng = some (res, rng1) →
      nonnegInv res.inventory) ∧
    (∀ b rng2, simulateBatch ctx n rng = some (b, rng2) →
      (∀ r ∈ b.attempts, nonnegInv r.inventory) ∧ nonnegInv b.finalInventory) := by
  constructor
  · intro res rng1 h
    exact simulateAttempt_inventory_nonneg hin h
  · intro b rng2 h
    unfold simulateBatch at h
    cases hloop : batchLoop ctx n (cloneInventory ctx.inventory) [] 0 [] rng with
    | none =>
      rw [hloop] at h
      cases h
    | some out =>
      obtain ⟨acc, inv, mins, tot, rng1⟩ := out
      rw [hloop] at h
      obtain ⟨hatts, hfin⟩ :=
        batchLoop_nonneg ctx n (cloneInventory ctx.inventory) [] 0 [] rng
          (acc, inv, mins, tot, rng1) (by simpa [cloneInventory] using hin)
          (by simp) hloop
      simp only [Option.some.injEq, Prod.mk.injEq] at h
      rw [← h.1]
      simpa using ⟨hatts, hfin⟩

/-- Witness for C9: the concrete batch run of `ctxRun` keeps every inventory
non-negative. -/
theorem inventories_nonneg_witness : nonnegInv runRes1.inventory := by
  have h := (inventories_nonneg ctxRun zeroRng 3 (by norm_num [nonnegInv, ctxRun])).1
  refine h runRes1 zeroRng ?_
  simp [simulateAttempt, ctxRun, demoAction, zeroRng, consumptionOf, consumptionFor,
    withExtraCatalystConsumption, resolveRisk, resolveDcAndTime, riskEntryFor,
    applyReduction, applyDcReduction, isFeasible, getD, setKey, mergeDelta,
    negateRecord, applyToInventory, cloneInventory, salvageStep, rollWithMode,
    rollD20main, rollD20salv, drawMain, drawSalvage, d20Of, runRes1]
  norm_num +decide [mergeDelta, applyToInventory, setKey, getD, runRes1]

/-- An infeasible attempt consumes no randomness: the random state comes back
untouched. -/
theorem simulateAttempt_rng_of_infeasible {ctx : AttemptContext} {rng : RngState}
    {res : AttemptResult} {rng1 : RngState}
    (h : simulateAttempt ctx rng = some (res, rng1)) (hf : res.feasible = false) :
    rng1 = rng := by
  unfold simulateAttempt at h
  split at h
  · exact absurd h (by simp)
  · dsimp only at h
    split at h
    · simp only [Option.some.injEq, Prod.mk.injEq] at h
      exact h.2.symm
    · simp only [Option.some.injEq, Prod.mk.injEq] at h
      rw [← h.1] at hf
      simp at hf

/-- The batch loop runs attempts back to back, stopping at the first
infeasible one; the loop's new results extend the accumulator, form a
`BatchChain`, and when the loop stopped early the next attempt from the final
state is infeasible. -/
theorem batchLoop_spec (ctx : AttemptContext) (n : ℕ) :
    ∀ (inv : ResRecord) (acc : List AttemptResult) (mins : ℚ) (tot : ResRecord)
      (rng : RngState)
      (out : List AttemptResult × ResRecord × ℚ × ResRecord × RngState),
      batchLoop ctx n inv acc mins tot rng = some out →
      ∃ newRes, out.1 = acc ++ newRes ∧ newRes.length ≤ n ∧
        BatchChain ctx inv rng newRes out.2.1 out.2.2.2.2 ∧
        (newRes.length < n →
          ∃ res rng2,
            simulateAttempt { ctx with inventory := out.2.1 } out.2.2.2.2
              = some (res, rng2) ∧ res.feasible = false) := by
  induction n with
  | zero =>
    intro inv acc mins tot rng out h
    unfold batchLoop at h
    cases Option.some.inj h
    exact ⟨[], by simp, by simp, BatchChain.nil inv rng, by omega⟩
  | succ n ih =>
    intro inv acc mins tot rng out h
    unfold batchLoop at h
    cases hatt : simulateAttempt { ctx with inventory := inv } rng with
    | none =>
      rw [hatt] at h
      cases h
    | some pr =>
      obtain ⟨res, rng1⟩ := pr
      rw [hatt] at h
      dsimp only at h
      by_cases hf : res.feasible
      · rw [if_pos hf] at h
        obtain ⟨newRes, hout, hlen, hchain, hfin⟩ :=
          ih res.inventory (acc ++ [res]) _ _ rng1 out h
        refine ⟨res :: newRes, ?_, ?_, ?_, ?_⟩
        · rw [hout, List.append_assoc, List.singleton_append]
        · simpa using Nat.succ_le_succ hlen
        · exact BatchChain.cons inv rng res rng1 newRes out.2.1 out.2.2.2.2 hatt hf hchain
        · intro hlt
          exact hfin (by simpa using Nat.lt_of_succ_lt_succ (Nat.succ_lt_succ (by simpa using hlt)))
      · rw [if_neg hf] at h
        cases Option.some.inj h
        have hrg : rng1 = rng :=
          simulateAttempt_rng_of_infeasible hatt (by simpa using hf)
        subst hrg
        refine ⟨[], by simp, by simp, BatchChain.nil inv rng1, ?_⟩
        intro _
        exact ⟨res, rng1, hatt, by simpa using hf⟩

/-- C3: whatever `simulateBatch` returns, `summary.runs` counts exactly the
returned attempts, at most `attempts` of them ran, they chain — each feasible,
each one's output inventory feeding the next, starting from the caller's
inventory and ending at `finalInventory` — and if the loop stopped before the
requested count, one more attempt from the final state would be infeasible.
In particular, with inventory sufficient for exactly `K < N` attempts the
batch returns exactly `K` results, without error. -/
theorem simulateBatch_stops_at_first_infeasible (ctx : AttemptContext) (n : ℕ)
    (rng : RngState) (b : BatchResult) (rng1 : RngState)
    (h : simulateBatch ctx n rng = some (b, rng1)) :
    b.summary.runs = b.attempts.length ∧
    b.attempts.length ≤ n ∧
    BatchChain ctx ctx.inventory rng b.attempts b.finalInventory rng1 ∧
    (b.attempts.length < n →
      ∃ res rng2,
        simulateAttempt { ctx with inventory := b.finalInventory } rng1
          = some (res, rng2) ∧ res.feasible = false) := by
  unfold simulateBatch at h
  cases hloop : batchLoop ctx n (cloneInventory ctx.inventory) [] 0 [] rng with
  | none =>
    rw [hloop] at h
    cases h
  | some out =>
    obtain ⟨acc, inv, mins, tot, rngL⟩ := out
    rw [hloop] at h
    obtain ⟨newRes, hout, hlen, hchain, hfin⟩ :=
      batchLoop_spec ctx n (cloneInventory ctx.inventory) [] 0 [] rng
        (acc, inv, mins, tot, rngL) hloop
    simp only [List.nil_append] at hout
    simp only [Option.some.injEq, Prod.mk.injEq] at h
    obtain ⟨hb, hr⟩ := h
    rw [← hb, ← hr]
    dsimp only at hout hchain hfin ⊢
    subst hout
    exact ⟨rfl, hlen, hchain, hfin⟩

/-- Witness for C3: `demoAction` against `{raw:5}` is sufficient for exactly
one of the three requested attempts; the batch returns that one attempt and
the next attempt from the final inventory is infeasible. -/
theorem simulateBatch_stops_witness :
    runBatch.summary.runs = runBatch.attempts.length ∧
    BatchChain ctxRun ctxRun.inventory zeroRng runBatch.attempts
      runBatch.finalInventory zeroRng ∧
    (∃ res rng2,
      simulateAttempt { ctxRun with inventory := runBatch.finalInventory } zeroRng
        = some (res, rng2) ∧ res.feasible = false) := by
  have hb : simulateBatch ctxRun 3 zeroRng = some (runBatch, zeroRng) := by
    simp [simulateBatch, batchLoop, simulateAttempt, ctxRun, demoAction, zeroRng,
      consumptionOf, consumptionFor, withExtraCatalystConsumption, resolveRisk,
      resolveDcAndTime, riskEntryFor, applyReduction, applyDcReduction, isFeasible,
      getD, setKey, mergeDelta, negateRecord, applyToInventory, cloneInventory,
      salvageStep, rollWithMode, rollD20main, rollD20salv, drawMain, drawSalvage,
      d20Of, runBatch, runRes1]
    norm_num +decide [mergeDelta, applyToInventory, setKey, getD, isFeasible,
      runBatch, runRes1, batchLoop]
  have h := simulateBatch_stops_at_first_infeasible ctxRun 3 zeroRng runBatch zeroRng hb
  exact ⟨h.1, h.2.2.1, h.2.2.2 (by norm_num [runBatch, runRes1])⟩

/-- `List.foldl min` is below its initial value. -/
theorem foldl_min_le_init (ls : List ℤ) : ∀ l : ℤ, ls.foldl min l ≤ l := by
  induction ls with
  | nil =>
    intro l
    simp
  | cons x rest ih =>
    intro l
    exact le_trans (ih (min l x)) (min_le_left l x)

/-- `List.foldl min` is below every list element. -/
theorem foldl_min_le_mem (ls : List ℤ) : ∀ (l x : ℤ), x ∈ ls → ls.foldl min l ≤ x := by
  induction ls with
  | nil =>
    intro l x hx
    cases hx
  | cons y rest ih =>
    intro l x hx
    rcases List.mem_cons.mp hx with h | h
    · subst h
      exact le_trans (foldl_min_le_init rest (min l x)) (min_le_right l x)
    · exact ih (min l y) x h

/-- `List.foldl min` is attained: it is the initial value or a list element. -/
theorem foldl_min_mem (ls : List ℤ) : ∀ l : ℤ, ls.foldl min l = l ∨ ls.foldl min l ∈ ls := by
  induction ls with
  | nil =>
    intro l
    exact Or.inl rfl
  | cons x rest ih =>
    intro l
    rcases ih (min l x) with h | h
    · rcases min_choice l x with hm | hm
      · exact Or.inl (by rw [List.foldl_cons, h, hm])
      · exact Or.inr (by rw [List.foldl_cons, h, hm]; exact List.mem_cons_self _ _)
    · exact Or.inr (List.mem_cons_of_mem _ (by rw [List.foldl_cons]; exact h))

/-- C6: `maxFeasibleAttempts` is unbounded (`none`, modelling `∞`) exactly
when no resource has positive per-attempt consumption; a finite answer `n` is
non-negative, bounded by `max 0 ⌊available / perAttemptCost⌋` for every
resource with positive consumption, and reached by one of them — i.e. it is
the minimum of the per-resource `⌊available / cost⌋` bounds clamped below at
0.  The concrete scenario: `{fused:1, rawAE:2}` per attempt plus 2 extra
`rawAE` catalyst against `{fused:10, rawAE:5}` yields `floor(5/4) = 1`. -/
theorem maxFeasibleAttempts_spec (action : ActionSpec) (inventory : ResRecord)
    (risk : Option Risk) (extraCatalyst : ℚ) :
    (maxFeasibleAttempts action inventory risk extraCatalyst = none ↔
      ∀ p ∈ consumptionFor action inventory risk extraCatalyst, ¬(0 < p.2)) ∧
    (∀ n : ℤ, maxFeasibleAttempts action inventory risk extraCatalyst = some n →
      0 ≤ n ∧
      (∀ p ∈ consumptionFor action inventory risk extraCatalyst,
        0 < p.2 → n ≤ max 0 ⌊getD inventory p.1 / p.2⌋) ∧
      (∃ p, p ∈ consumptionFor action inventory risk extraCatalyst ∧ 0 < p.2 ∧
        ⌊getD inventory p.1 / p.2⌋ ≤ n)) ∧
    maxFeasibleAttempts catalystAction catalystInv none 2 = some 1 := by
  refine ⟨?_, ?_, ?_⟩
  · unfold maxFeasibleAttempts
    cases hL : ((consumptionFor action inventory risk extraCatalyst).filter
        (fun p => decide (0 < p.2))).map (fun p => ⌊getD inventory p.1 / p.2⌋) with
    | nil =>
      simp only [hL]
      constructor
      · intro _ p hp hpos
        have hfil : (consumptionFor action inventory risk extraCatalyst).filter
            (fun p => decide (0 < p.2)) = [] := List.map_eq_nil_iff.mp hL
        have := List.filter_eq_nil_iff.mp hfil p hp
        exact this (by simpa using hpos)
      · intro _
        trivial
    | cons l ls =>
      simp only [hL]
      constructor
      · intro hcontra
        cases hcontra
      · intro hnone
        have : l ∈ ((consumptionFor action inventory risk extraCatalyst).filter
            (fun p => decide (0 < p.2))).map (fun p => ⌊getD inventory p.1 / p.2⌋) := by
          rw [hL]
          exact List.mem_cons_self _ _
        obtain ⟨p, hpfil, _⟩ := List.mem_map.mp this
        have hp := List.mem_filter.mp hpfil
        exact absurd (by simpa using hp.2) (hnone p hp.1)
  · intro n hn
    unfold maxFeasibleAttempts at hn
    cases hL : ((consumptionFor action inventory risk extraCatalyst).filter
        (fun p => decide (0 < p.2))).map (fun p => ⌊getD inventory p.1 / p.2⌋) with
    | nil =>
      rw [hL] at hn
      cases hn
    | cons l ls =>
      rw [hL] at hn
      have hn' : n = max 0 (ls.foldl min l) := (Option.some.inj hn).symm
      refine ⟨by rw [hn']; exact le_max_left _ _, ?_, ?_⟩
      · intro p hp hpos
        have hfl : ⌊getD inventory p.1 / p.2⌋ ∈ l :: ls := by
          rw [← hL]
          exact List.mem_map.mpr ⟨p, List.mem_filter.mpr ⟨hp, by simpa using hpos⟩, rfl⟩
        have hmin : ls.foldl min l ≤ ⌊getD inventory p.1 / p.2⌋ := by
          rcases List.mem_cons.mp hfl with h1 | h1
          · rw [← h1]
            exact foldl_min_le_init ls _
          · exact foldl_min_le_mem ls l _ h1
        rw [hn']
        exact max_le_max le_rfl hmin
      · have hmem : ls.foldl min l ∈ l :: ls := by
          rcases foldl_min_mem ls l with h1 | h1
          · rw [h1]
            exact List.mem_cons_self _ _
          · exact List.mem_cons_of_mem _ h1
        have : ls.foldl min l ∈ ((consumptionFor action inventory risk
            extraCatalyst).filter (fun p => decide (0 < p.2))).map
            (fun p => ⌊getD inventory p.1 / p.2⌋) := by
          rw [hL]
          exact hmem
        obtain ⟨p, hpfil, hpeq⟩ := List.mem_map.mp this
        have hp := List.mem_filter.mp hpfil
        exact ⟨p, hp.1, by simpa using hp.2, by rw [hpeq, hn']; exact le_max_right _ _⟩
  · simp [maxFeasibleAttempts, consumptionFor, withExtraCatalystConsumption,
      resolveRisk, catalystAction, catalystInv, getD, setKey]
    norm_num [Rat.floor_def]

/-- Witness for C6: in the concrete scenario the bound of the `rawAE` entry
(cost 4 against 5 in stock) is the binding one. -/
theorem maxFeasibleAttempts_spec_witness :
    (0 : ℤ) ≤ 1 ∧ (1 : ℤ) ≤ max 0 ⌊getD catalystInv "rawAE" / (4 : ℚ)⌋ := by
  have h := maxFeasibleAttempts_spec catalystAction catalystInv none 2
  have h1 := h.2.1 1 h.2.2
  refine ⟨h1.1, ?_⟩
  have := h1.2.1 ("rawAE", 4) ?_ (by norm_num)
  · simpa using this
  · simp [consumptionFor, withExtraCatalystConsumption, resolveRisk,
      catalystAction, catalystInv, getD, setKey]
    norm_num

/-- Counterexample for C8 as frozen: when success production exactly cancels
consumption of the same resource, the delta keeps the resource as an explicit
zero-valued key — it is not absent.  (`cancelAction` consumes `{raw:1}` and
produces `{raw:1}` on its guaranteed success.) -/
theorem delta_zero_key_counterexample :
    (simulateAttempt cancelCtx zeroRng).map (fun p => (p.1.feasible, p.1.delta))
      = some (true, [("raw", 0)]) := by
  simp [simulateAttempt, cancelCtx, cancelAction, zeroRng, consumptionOf,
    consumptionFor, withExtraCatalystConsumption, resolveRisk, resolveDcAndTime,
    riskEntryFor, applyReduction, applyDcReduction, isFeasible, getD, setKey,
    mergeDelta, negateRecord, applyToInventory, cloneInventory, salvageStep,
    rollWithMode, rollD20main, rollD20salv, drawMain, drawSalvage, d20Of]

/-- The base delta of a feasible attempt only holds keys with a nonzero
contribution from consumption or success production. -/
theorem hasKey_base_delta {c produced : ResRecord} {k : ResourceId}
    (hk : hasKey (mergeDelta (mergeDelta [] (negateRecord c)) produced) k = true) :
    (∃ a, (k, a) ∈ c ∧ a ≠ 0) ∨ (∃ a, (k, a) ∈ produced ∧ a ≠ 0) := by
  rcases hasKey_mergeDelta hk with h1 | h1
  · rcases hasKey_mergeDelta h1 with h2 | h2
    · exact absurd h2 (by simp [hasKey])
    · obtain ⟨a, ha, hz⟩ := h2
      obtain ⟨hmem, _⟩ := mem_negateRecord ha
      exact Or.inl ⟨-a, hmem, neg_ne_zero.mpr hz⟩
  · exact Or.inr h1

/-- The salvage step adds delta keys only from the salvage clause's produce
record, and only nonzero ones. -/
theorem salvageStep_delta_hasKey {m : ℚ} {succ : Bool} {sal : Option SalvageClause}
    {delta : ResRecord} {rng : RngState} {k : ResourceId}
    (hk : hasKey (salvageStep m succ sal delta rng).2.1 k = true) :
    hasKey delta k = true ∨
    (∃ cl, sal = some cl ∧ ∃ a, (k, a) ∈ cl.produce ∧ a ≠ 0) := by
  unfold salvageStep at hk
  rcases succ with _ | _
  · rcases sal with _ | cl
    · exact Or.inl hk
    · revert hk
      dsimp only
      split
      · intro hk
        rcases hasKey_mergeDelta hk with h1 | h1
        · exact Or.inl h1
        · exact Or.inr ⟨cl, rfl, h1⟩
      · intro hk
        exact Or.inl hk
  · exact Or.inl hk

/-- Membership in `if c then l else []` implies membership in `l`. -/
theorem mem_ite_nil {c : Prop} [Decidable c] {l : ResRecord} {p : ResourceId × ℚ}
    (h : p ∈ if c then l else []) : p ∈ l := by
  split at h
  · exact h
  · cases h

/-- C8 (amended): zero amounts never create delta keys — every resource
present in a feasible attempt's delta received a nonzero contribution from
consumption, success production, or the salvage clause's produce record;
however (per the counterexample) nonzero contributions that cancel leave the
key present with an explicit zero value rather than removing it. -/
theorem delta_keys_amended (ctx : AttemptContext) (rng : RngState)
    (res : AttemptResult) (rng1 : RngState)
    (h : simulateAttempt ctx rng = some (res, rng1)) (hf : res.feasible = true)
    (k : ResourceId) (hk : hasKey res.delta k = true) :
    (∃ a, (k, a) ∈ consumptionOf ctx ∧ a ≠ 0) ∨
    (∃ a, (k, a) ∈ (ctx.action.io (resolveRisk ctx.action ctx.risk)
        ctx.inventory).produceOnSuccess ∧ a ≠ 0) ∨
    (∃ cl, (ctx.action.io (resolveRisk ctx.action ctx.risk)
        ctx.inventory).salvage = some cl ∧ ∃ a, (k, a) ∈ cl.produce ∧ a ≠ 0) := by
  unfold simulateAttempt at h
  split at h
  · exact absurd h (by simp)
  · dsimp only at h
    split at h
    · simp only [Option.some.injEq, Prod.mk.injEq] at h
      rw [← h.1] at hf
      simp at hf
    · simp only [Option.some.injEq, Prod.mk.injEq] at h
      rw [← h.1] at hk
      dsimp only [cloneInventory] at hk
      rcases salvageStep_delta_hasKey hk with h1 | h1
      · rcases hasKey_base_delta h1 with h2 | h2
        · exact Or.inl h2
        · obtain ⟨a, ha, hz⟩ := h2
          exact Or.inr (Or.inl ⟨a, mem_ite_nil ha, hz⟩)
      · exact Or.inr (Or.inr h1)

/-- Witness for the amended C8: in the cancellation scenario the `"raw"` key
of the delta traces back to the nonzero consumption entry. -/
theorem delta_keys_amended_witness :
    (∃ a, (("raw" : ResourceId), a) ∈ consumptionOf cancelCtx ∧ a ≠ 0) ∨
    (∃ a, (("raw" : ResourceId), a) ∈ (cancelCtx.action.io
        (resolveRisk cancelCtx.action cancelCtx.risk)
        cancelCtx.inventory).produceOnSuccess ∧ a ≠ 0) ∨
    (∃ cl, (cancelCtx.action.io (resolveRisk cancelCtx.action cancelCtx.risk)
        cancelCtx.inventory).salvage = some cl ∧
      ∃ a, (("raw" : ResourceId), a) ∈ cl.produce ∧ a ≠ 0) := by
  refine delta_keys_amended cancelCtx zeroRng cancelRes zeroRng ?_ rfl "raw" rfl
  simp [simulateAttempt, cancelCtx, cancelAction, zeroRng, consumptionOf,
    consumptionFor, withExtraCatalystConsumption, resolveRisk, resolveDcAndTime,
    riskEntryFor, applyReduction, applyDcReduction, isFeasible, getD, setKey,
    mergeDelta, negateRecord, applyToInventory, cloneInventory, salvageStep,
    rollWithMode, rollD20main, rollD20salv, drawMain, drawSalvage, d20Of, cancelRes]

/-- `drawMain` never touches the salvage source. -/
theorem drawMain_salvSrc (s : RngState) : (drawMain s).2.salvSrc = s.salvSrc := by
  unfold drawMain
  split <;> rfl

/-- The main-check roll never touches the salvage source. -/
theorem rollWithMode_salvSrc (mode : RollMode) (s : RngState) :
    ((rollWithMode mode s).2).salvSrc = s.salvSrc := by
  cases mode <;>
    simp [rollWithMode, rollD20main, drawMain_salvSrc]

/-- `drawMain` keeps an absent main source absent. -/
theorem drawMain_mainSrc_none {s : RngState} (h : s.mainSrc = none) :
    (drawMain s).2.mainSrc = none := by
  unfold drawMain
  rw [h]

/-- The main-check roll keeps an absent main source absent. -/
theorem rollWithMode_mainSrc_none {s : RngState} (mode : RollMode)
    (h : s.mainSrc = none) : ((rollWithMode mode s).2).mainSrc = none := by
  cases mode <;>
    simp [rollWithMode, rollD20main, drawMain_mainSrc_none, drawMain_mainSrc_none h]

/-- On a failed check with a salvage clause, the salvage step's result and
final random state are one `rollD20` drawn via the salvage chain, regardless
of whether the salvage roll itself succeeds. -/
theorem salvageStep_on_fail (m : ℚ) (clause : SalvageClause) (delta : ResRecord)
    (rng : RngState) :
    (salvageStep m false (some clause) delta rng).1 =
      { attempted := true, raw := some ((rollD20salv rng).1), modifier := m,
        total := some ((rollD20salv rng).1 + m), dc := some clause.dc,
        success := some (decide (clause.dc ≤ (rollD20salv rng).1 + m)) } ∧
    (salvageStep m false (some clause) delta rng).2.2.2 = (rollD20salv rng).2 := by
  unfold salvageStep
  dsimp only
  split <;> exact ⟨rfl, rfl⟩

/-- C10: whenever a feasible attempt's main check fails and the action's
resolved I/O defines a salvage clause, `simulateAttempt` resolves salvage with
exactly one d20 drawn from the salvage source when one is supplied, otherwise
from the main check's source, otherwise from the platform source — consuming
exactly one value of the chosen queue and leaving the others where the main
check left them — and reports salvage success exactly when that single roll
plus the caller's modifier reaches the salvage DC. -/
theorem salvage_roll_spec (ctx : AttemptContext) (rng : RngState)
    (res : AttemptResult) (rng1 : RngState) (c : CheckResult) (clause : SalvageClause)
    (h : simulateAttempt ctx rng = some (res, rng1))
    (hchk : res.check = some c) (hfail : c.success = false)
    (hcl : (ctx.action.io (resolveRisk ctx.action ctx.risk) ctx.inventory).salvage
      = some clause) :
    (∀ q, rng.salvSrc = some q →
      res.salvage = some
        { attempted := true, raw := some (d20Of (q.headD 0)),
          modifier := ctx.modifier, total := some (d20Of (q.headD 0) + ctx.modifier),
          dc := some clause.dc,
          success := some (decide (clause.dc ≤ d20Of (q.headD 0) + ctx.modifier)) } ∧
      rng1 = { (rollWithMode ctx.mode rng).2 with salvSrc := some q.tail }) ∧
    (rng.salvSrc = none →
      ∀ q, ((rollWithMode ctx.mode rng).2).mainSrc = some q →
      res.salvage = some
        { attempted := true, raw := some (d20Of (q.headD 0)),
          modifier := ctx.modifier, total := some (d20Of (q.headD 0) + ctx.modifier),
          dc := some clause.dc,
          success := some (decide (clause.dc ≤ d20Of (q.headD 0) + ctx.modifier)) } ∧
      rng1 = { (rollWithMode ctx.mode rng).2 with mainSrc := some q.tail }) ∧
    (rng.salvSrc = none → rng.mainSrc = none →
      res.salvage = some
        { attempted := true,
          raw := some (d20Of (((rollWithMode ctx.mode rng).2).platform.headD 0)),
          modifier := ctx.modifier,
          total := some (d20Of (((rollWithMode ctx.mode rng).2).platform.headD 0)
            + ctx.modifier),
          dc := some clause.dc,
          success := some (decide (clause.dc ≤
            d20Of (((rollWithMode ctx.mode rng).2).platform.headD 0) + ctx.modifier)) } ∧
      rng1 = { (rollWithMode ctx.mode rng).2 with
        platform := ((rollWithMode ctx.mode rng).2).platform.tail }) := by
  unfold simulateAttempt at h
  split at h
  · exact absurd h (by simp)
  · dsimp only at h
    split at h
    · simp only [Option.some.injEq, Prod.mk.injEq] at h
      rw [← h.1] at hchk
      simp at hchk
    · simp only [Option.some.injEq, Prod.mk.injEq] at h
      obtain ⟨hres, hrng⟩ := h
      rw [← hres] at hchk
      dsimp only at hchk
      have hc := Option.some.inj hchk
      rw [← hc] at hfail
      dsimp only at hfail
      dsimp only [cloneInventory] at hres hrng
      rw [hcl] at hres hrng
      rw [hfail] at hres hrng
      obtain ⟨hsalv, hstep⟩ := salvageStep_on_fail ctx.modifier clause
        (mergeDelta (mergeDelta [] (negateRecord (consumptionOf ctx)))
          (if (false : Bool) = true then
            (ctx.action.io (resolveRisk ctx.action ctx.risk)
              ctx.inventory).produceOnSuccess
          else [])) ((rollWithMode ctx.mode rng).2)
      refine ⟨?_, ?_, ?_⟩
      · intro q hq
        have hCsalv : ((rollWithMode ctx.mode rng).2).salvSrc = some q := by
          rw [rollWithMode_salvSrc, hq]
        have hdraw : drawSalvage ((rollWithMode ctx.mode rng).2)
            = (q.headD 0, { (rollWithMode ctx.mode rng).2 with salvSrc := some q.tail }) := by
          unfold drawSalvage
          rw [hCsalv]
        constructor
        · rw [← hres]
          dsimp only
          rw [hsalv]
          unfold rollD20salv
          rw [hdraw]
        · rw [← hrng, hstep]
          unfold rollD20salv
          rw [hdraw]
      · intro hq0 q hq
        have hCsalv : ((rollWithMode ctx.mode rng).2).salvSrc = none := by
          rw [rollWithMode_salvSrc, hq0]
        have hdraw : drawSalvage ((rollWithMode ctx.mode rng).2)
            = (q.headD 0, { (rollWithMode ctx.mode rng).2 with mainSrc := some q.tail }) := by
          unfold drawSalvage
          rw [hCsalv]
          unfold drawMain
          rw [hq]
        constructor
        · rw [← hres]
          dsimp only
          rw [hsalv]
          unfold rollD20salv
          rw [hdraw]
        · rw [← hrng, hstep]
          unfold rollD20salv
          rw [hdraw]
      · intro hq0 hm0
        have hCsalv : ((rollWithMode ctx.mode rng).2).salvSrc = none := by
          rw [rollWithMode_salvSrc, hq0]
        have hCmain : ((rollWithMode ctx.mode rng).2).mainSrc = none :=
          rollWithMode_mainSrc_none ctx.mode hm0
        have hdraw : drawSalvage ((rollWithMode ctx.mode rng).2)
            = (((rollWithMode ctx.mode rng).2).platform.headD 0,
               { (rollWithMode ctx.mode rng).2 with
                 platform := ((rollWithMode ctx.mode rng).2).platform.tail }) := by
          unfold drawSalvage
          rw [hCsalv]
          unfold drawMain
          simp [hCmain]
        constructor
        · rw [← hres]
          dsimp only
          rw [hsalv]
          unfold rollD20salv
          rw [hdraw]
        · rw [← hrng, hstep]
          unfold rollD20salv
          rw [hdraw]

/-- Witness for C10: `salvCtx` fails its check (roll 1 vs DC 12) and resolves
salvage from the supplied salvage queue `[9/10]` — one element consumed,
face 19, total 19 ≥ 12, success. -/
theorem salvage_roll_witness :
    salvRes.salvage = some
      { attempted := true, raw := some (d20Of (([(9 : ℚ)/10]).headD 0)),
        modifier := salvCtx.modifier,
        total := some (d20Of (([(9 : ℚ)/10]).headD 0) + salvCtx.modifier),
        dc := some ({ dc := 12, produce := [("raw", 1)] } : SalvageClause).dc,
        success := some (decide (({ dc := 12, produce := [("raw", 1)] } :
          SalvageClause).dc ≤ d20Of (([(9 : ℚ)/10]).headD 0) + salvCtx.modifier)) } ∧
    salvRngOut = { (rollWithMode salvCtx.mode salvRng).2 with
      salvSrc := some ([(9 : ℚ)/10]).tail } := by
  have hEval : simulateAttempt salvCtx salvRng = some (salvRes, salvRngOut) := by
    simp [simulateAttempt, salvCtx, salvAction, salvRng, salvRngOut, consumptionOf,
      consumptionFor, withExtraCatalystConsumption, resolveRisk, resolveDcAndTime,
      riskEntryFor, applyReduction, applyDcReduction, isFeasible, getD, setKey,
      mergeDelta, negateRecord, applyToInventory, cloneInventory, salvageStep,
      rollWithMode, rollD20main, rollD20salv, drawMain, drawSalvage, d20Of, salvRes]
    norm_num +decide [mergeDelta, applyToInventory, setKey, getD, Rat.floor_def,
      salvRes, salvRngOut]
  have h := salvage_roll_spec salvCtx salvRng salvRes salvRngOut
    { raw := 1, detail := [1], modifier := 0, total := 1, dc := 12,
      mode := .normal, success := false }
    { dc := 12, produce := [("raw", 1)] } hEval rfl rfl rfl
  exact h.1 [9/10] rfl

/-- Allocation returns the next free address. -/
theorem fst_allocS (s : Store) (r : ResRecord) : (allocS s r).1 = s.length := rfl

/-- Allocation grows the heap by one cell. -/
theorem length_allocS (s : Store) (r : ResRecord) :
    (allocS s r).2.length = s.length + 1 := by
  simp [allocS]

/-- Writing preserves the heap size. -/
theorem length_writeS (s : Store) (b : ℕ) (r : ResRecord) :
    (writeS s b r).length = s.length := by
  simp [writeS]

/-- Reads below the old size see through an allocation. -/
theorem readS_allocS_lt {s : Store} {r : ResRecord} {a : ℕ} (h : a < s.length) :
    readS (allocS s r).2 a = readS s a := by
  unfold readS allocS
  exact List.getD_append _ _ _ _ h

/-- Reads at a different address see through a write. -/
theorem readS_writeS_ne {s : Store} {b : ℕ} {r : ResRecord} {a : ℕ} (h : a ≠ b) :
    readS (writeS s b r) a = readS s a := by
  induction s generalizing a b with
  | nil => rfl
  | cons x xs ih =>
    cases b with
    | zero =>
      cases a with
      | zero => exact absurd rfl h
      | succ a => rfl
    | succ b =>
      cases a with
      | zero => rfl
      | succ a => exact ih (fun hh => h (congrArg Nat.succ hh))

/-- `mergeDeltaS` preserves the heap size. -/
theorem length_mergeDeltaS (s : Store) (t : ℕ) (d : ResRecord) :
    (mergeDeltaS s t d).length = s.length := by
  simp [mergeDeltaS, writeS]

/-- Reads at a different address see through `mergeDeltaS`. -/
theorem readS_mergeDeltaS_ne {s : Store} {t : ℕ} {d : ResRecord} {a : ℕ}
    (h : a ≠ t) : readS (mergeDeltaS s t d) a = readS s a :=
  readS_writeS_ne h

/-- `applyToInventoryS` preserves the heap size. -/
theorem length_applyToInventoryS (s : Store) (t : ℕ) (d : ResRecord) :
    (applyToInventoryS s t d).length = s.length := by
  simp [applyToInventoryS, writeS]

/-- Reads at a different address see through `applyToInventoryS`. -/
theorem readS_applyToInventoryS_ne {s : Store} {t : ℕ} {d : ResRecord} {a : ℕ}
    (h : a ≠ t) : readS (applyToInventoryS s t d) a = readS s a :=
  readS_writeS_ne h

/-- The salvage step preserves the heap size. -/
theorem length_salvageStepS (m : ℚ) (succ : Bool) (clause : Option SalvageClause)
    (dRef sRef : ℕ) (s : Store) (rng : RngState) :
    (salvageStepS m succ clause dRef sRef s rng).1.length = s.length := by
  unfold salvageStepS
  rcases succ with _ | _ <;> rcases clause with _ | c
  all_goals try dsimp only
  all_goals
    first
    | rfl
    | (split <;> simp [mergeDeltaS, writeS])

/-- The salvage step writes only to the delta and salvageDelta references. -/
theorem readS_salvageStepS {m : ℚ} {succ : Bool} {clause : Option SalvageClause}
    {dRef sRef : ℕ} {s : Store} {rng : RngState} {a : ℕ}
    (h1 : a ≠ dRef) (h2 : a ≠ sRef) :
    readS (salvageStepS m succ clause dRef sRef s rng).1 a = readS s a := by
  unfold salvageStepS
  rcases succ with _ | _ <;> rcases clause with _ | c
  all_goals try dsimp only
  all_goals
    first
    | rfl
    | (split <;>
        first
        | rw [readS_mergeDeltaS_ne h2, readS_mergeDeltaS_ne h1]
        | rfl)

/-- Frame property of one heap-model attempt: the heap only grows, and every
pre-existing address — in particular the caller's inventory object — reads
back unchanged, because the engine writes only through the delta,
salvageDelta and final-inventory objects it freshly allocated. -/
theorem simulateAttemptS_frame (ctx : AttemptContextS) (s : Store) (rng : RngState) :
    ∀ res s1 rng1, simulateAttemptS ctx s rng = some (res, s1, rng1) →
      s.length ≤ s1.length ∧ ∀ a, a < s.length → readS s1 a = readS s a := by
  intro res s1 rng1 h
  rw [simulateAttemptS] at h
  split at h
  · exact absurd h (by simp)
  · dsimp only at h
    split at h
    · simp only [Option.some.injEq, Prod.mk.injEq] at h
      obtain ⟨-, hs, -⟩ := h
      subst hs
      constructor
      · simp only [length_allocS]
        omega
      · intro a ha
        have l1 : a < (allocS s (cloneInventory (readS s ctx.inventoryRef))).2.length := by
          simp only [length_allocS]
          omega
        rw [readS_allocS_lt l1, readS_allocS_lt ha]
    · simp only [Option.some.injEq, Prod.mk.injEq] at h
      obtain ⟨-, hs, -⟩ := h
      subst hs
      simp only [fst_allocS, length_allocS, length_mergeDeltaS, length_salvageStepS]
      constructor
      · simp only [length_applyToInventoryS, length_allocS, length_salvageStepS,
          length_mergeDeltaS]
        omega
      · intro a ha
        rw [readS_applyToInventoryS_ne (by omega)]
        rw [readS_allocS_lt (by
          simp only [length_salvageStepS, length_allocS, length_mergeDeltaS]
          omega)]
        rw [readS_salvageStepS (by omega) (by omega)]
        rw [readS_allocS_lt (by
          simp only [length_mergeDeltaS, length_allocS]
          omega)]
        rw [readS_mergeDeltaS_ne (by omega)]
        rw [readS_mergeDeltaS_ne (by omega)]
        rw [readS_allocS_lt (by
          simp only [length_allocS]
          omega)]
        exact readS_allocS_lt ha

/-- Frame property of the heap-model batch loop: addresses below a bound `m`
that also lies at or below the totalDelta reference read back unchanged. -/
theorem batchLoopS_frame (ctx : AttemptContextS) (n : ℕ) :
    ∀ (invRef totRef : ℕ) (s : Store) (rng : RngState) (m : ℕ)
      (out : ℕ × Store × RngState),
      batchLoopS ctx n invRef totRef s rng = some out →
      m ≤ s.length → m ≤ totRef →
      m ≤ out.2.1.length ∧ ∀ a, a < m → readS out.2.1 a = readS s a := by
  induction n with
  | zero =>
    intro invRef totRef s rng m out h hm ht
    cases Option.some.inj h
    exact ⟨hm, fun a ha => rfl⟩
  | succ n ih =>
    intro invRef totRef s rng m out h hm ht
    unfold batchLoopS at h
    cases hatt : simulateAttemptS { ctx with inventoryRef := invRef } s rng with
    | none =>
      rw [hatt] at h
      cases h
    | some pr =>
      obtain ⟨res, s1, rng1⟩ := pr
      rw [hatt] at h
      dsimp only at h
      obtain ⟨hlen, hread⟩ :=
        simulateAttemptS_frame { ctx with inventoryRef := invRef } s rng res s1 rng1 hatt
      by_cases hf : res.feasible
      · rw [if_pos hf] at h
        obtain ⟨hlen2, hread2⟩ := ih res.inventoryRef totRef
          (mergeDeltaS s1 totRef (readS s1 res.deltaRef)) rng1 m out h
          (by rw [length_mergeDeltaS]; omega) ht
        refine ⟨hlen2, fun a ha => ?_⟩
        rw [hread2 a ha, readS_mergeDeltaS_ne (by omega), hread a (by omega)]
      · rw [if_neg hf] at h
        cases Option.some.inj h
        refine ⟨?_, fun a ha => ?_⟩
        · dsimp only
          omega
        · dsimp only
          exact hread a (by omega)

/-- C2: the engine never mutates the inventory object the caller passed in.
In the heap model, both `simulateAttemptS` and `simulateBatchS` leave the
record at the caller's `inventoryRef` address exactly as it was — they operate
on and return freshly allocated clones — for every action, risk, mode,
extra-catalyst count and random source. -/
theorem engine_never_mutates_caller_inventory (ctx : AttemptContextS) (s : Store)
    (rng : RngState) (n : ℕ) (href : ctx.inventoryRef < s.length) :
    (∀ res s1 rng1, simulateAttemptS ctx s rng = some (res, s1, rng1) →
      readS s1 ctx.inventoryRef = readS s ctx.inventoryRef) ∧
    (∀ invRef s2 rng2, simulateBatchS ctx n s rng = some (invRef, s2, rng2) →
      readS s2 ctx.inventoryRef = readS s ctx.inventoryRef) := by
  constructor
  · intro res s1 rng1 h
    exact (simulateAttemptS_frame ctx s rng res s1 rng1 h).2 _ href
  · intro invRef s2 rng2 h
    unfold simulateBatchS at h
    dsimp only at h
    obtain ⟨-, hread⟩ := batchLoopS_frame ctx n _ _ _ rng s.length
      (invRef, s2, rng2) h
      (by simp only [length_allocS]; omega)
      (by simp only [fst_allocS, length_allocS]; omega)
    rw [hread ctx.inventoryRef href]
    rw [readS_allocS_lt (by simp only [length_allocS]; omega)]
    exact readS_allocS_lt href

/-- Witness for C2: running `demoAction` through the heap model against the
store `[{raw:7}]` leaves the caller's record at address 0 untouched. -/
theorem engine_never_mutates_witness :
    readS demoStoreOut 0 = readS demoStore 0 := by
  have h := (engine_never_mutates_caller_inventory demoCtxS demoStore zeroRng 1
    (by norm_num [demoCtxS, demoStore])).1
  refine h { feasible := true, inventoryRef := 4, deltaRef := 2, timeMinutes := 10 }
    demoStoreOut zeroRng ?_
  simp [simulateAttemptS, demoCtxS, demoAction, demoStore, demoStoreOut, zeroRng,
    readS, writeS, allocS, mergeDeltaS, applyToInventoryS, salvageStepS,
    consumptionOf, consumptionFor, withExtraCatalystConsumption, resolveRisk,
    resolveDcAndTime, riskEntryFor, applyReduction, applyDcReduction, isFeasible,
    getD, setKey, mergeDelta, negateRecord, applyToInventory, cloneInventory,
    rollWithMode, rollD20main, rollD20salv, drawMain, drawSalvage, d20Of]
  norm_num +decide [mergeDelta, applyToInventory, setKey, getD, readS, writeS,
    List.set, List.getD]

end EngineClaims

end EssenceCraft
